import Mathlib

/-!
Shallow embedding of the ESP32-S3 MIDI controller firmware
(`src/main.rs`, `src/mux.rs`) and proofs of its stated properties.

Time (`embassy_time::Instant` / `Duration`) is modelled by `Int` (ticks);
`Instant::duration_since` becomes integer subtraction.  The `heapless::Vec`
queues of capacity 128 are modelled by `List Int` together with a bounded
push.  Array indexing that can panic in Rust (`KEYS[index]`,
`key_note[...]`, `digital_in[index]`) is modelled with `Option`: `none`
is a panic.
-/

namespace MidiController

/-- `SwitchState` from `mux.rs`: the stable state of one channel. -/
inductive SwitchState where
  | High
  | Low
deriving DecidableEq, Repr

/-- An edge event fired by the debounce filter: the Rust code invokes the
falling- or rising-edge callback with the flat channel index; we return the
invocation as a value. -/
inductive Edge where
  | falling (index : Nat)
  | rising (index : Nat)
deriving DecidableEq, Repr

/-- The index an edge carries. -/
def Edge.index : Edge → Nat
  | .falling i => i
  | .rising i => i

/-- The mutable part of `Multiplexer4051` that the claims are about:
the three select (address) lines (`true` = high), the stable state of all
64 channels, each channel's last-accepted-change timestamp, and the
debounce interval. -/
structure MuxState where
  select : List Bool
  digital_in : List SwitchState
  last_change : List Int
  debounce_interval : Int
deriving Repr, DecidableEq

/-- `Multiplexer4051::new`: 64 channels initialised `High`, debounce
interval 20 ms (20 ticks here, one tick per ms), each last-change
timestamp set to `now - debounce_interval` so the first transition is
never suppressed. -/
def MuxState.new (now : Int) : MuxState :=
  { select := [false, false, false]
    digital_in := List.replicate 64 SwitchState.High
    last_change := List.replicate 64 (now - 20)
    debounce_interval := 20 }

/-- `Multiplexer4051::set_channel`: drive the three address lines to the
binary encoding of `channel`, least-significant bit on the first line.
The source computes `bits = [(c >> 0) & 1, (c >> 1) & 1, (c >> 2) & 1]`
and sets each pin low/high accordingly. -/
def MuxState.set_channel (m : MuxState) (channel : Nat) : MuxState :=
  { m with select :=
      [decide ((channel >>> 0) &&& 1 ≠ 0),
       decide ((channel >>> 1) &&& 1 ≠ 0),
       decide ((channel >>> 2) &&& 1 ≠ 0)] }

/-- `Multiplexer4051::poll_digital_input_chip`: debounced polling of one
channel.  `reading` is the raw sample (`true` = line pulled low =
pressed); `now` is the current instant.  Returns the updated state and
the edge callback fired, if any; `none` models the panic of an
out-of-bounds array access. -/
def MuxState.poll_digital_input_chip (m : MuxState) (reading : Bool)
    (read_channel : Nat) (chip_offset : Nat) (now : Int) :
    Option (MuxState × Option Edge) :=
  let index := read_channel + 8 * chip_offset
  match m.digital_in.get? index, m.last_change.get? index with
  | some current_state, some last =>
    let expected_state := if reading then SwitchState.Low else SwitchState.High
    if current_state ≠ expected_state then
      if now - last ≥ m.debounce_interval then
        some ({ m with digital_in := m.digital_in.set index expected_state,
                       last_change := m.last_change.set index now },
              some (if expected_state = SwitchState.Low then Edge.falling index
                    else Edge.rising index))
      else some (m, none)
    else some (m, none)
  | _, _ => none

/-- Repeated debounced polling of one fixed channel: fold
`poll_digital_input_chip` over a list of `(reading, now)` samples,
collecting the timestamps at which a state change was accepted. -/
def MuxState.poll_trace (m : MuxState) (read_channel : Nat)
    (chip_offset : Nat) : List (Bool × Int) → Option (MuxState × List Int)
  | [] => some (m, [])
  | (reading, now) :: rest =>
    match m.poll_digital_input_chip reading read_channel chip_offset now with
    | none => none
    | some (m', e) =>
      match (m'.poll_trace read_channel chip_offset rest) with
      | none => none
      | some (m'', ts) =>
        some (m'', (match e with | some _ => now :: ts | none => ts))

/-- `KEYS` from `main.rs`: the channel-to-role map.  255 = octave up,
254 = octave down, otherwise a musical key index. -/
def KEYS : List Int :=
  [255, 254, 0, 1, 2, 3, 4, 5, 6, 7, 8, 9, 10, 11, 12, 13, 14, 15, 16,
   17, 18, 19, 20, 21, 22, 23, 24]

/-- `GlobalState` from `main.rs`: `key_note` stores the note currently
held on each key (255 = none); `octave` is the current octave. -/
structure GlobalState where
  key_note : List Int
  octave : Int
deriving Repr, DecidableEq

/-- The combined firmware state the edge handlers act on: `GLOBAL_STATE`
plus the two event queues `ON_EVENTS` and `OFF_EVENTS`. -/
structure Statics where
  global_state : GlobalState
  on_events : List Int
  off_events : List Int
deriving Repr, DecidableEq

/-- Initial values of the statics: `key_note = [255; 25]`, `octave = 4`,
both queues empty. -/
def initStatics : Statics :=
  { global_state := { key_note := List.replicate 25 255, octave := 4 }
    on_events := []
    off_events := [] }

/-- `heapless::Vec<i32, 128>::push` with the error discarded (`.ok()`):
append at the tail when fewer than 128 entries are held, otherwise leave
the queue unchanged.  Both producer sites in `main.rs` reduce to this:
the callbacks guard with `events.len() < 128` before `push(..).ok()`,
and the retry sites call `push(..).ok()` directly, which fails (and is
ignored) exactly on a full vector. -/
def vec_push (q : List Int) (x : Int) : List Int :=
  if q.length < 128 then q ++ [x] else q

/-- `falling_edge_handler` from `main.rs` (button pressed).  `none`
models the panic of an out-of-bounds `KEYS[index]` or
`key_note[KEYS[index] as usize]` access (a negative value cast
`as usize` would also index out of bounds). -/
def falling_edge_handler (s : Statics) (index : Nat) : Option Statics :=
  match KEYS.get? index with
  | none => none
  | some k =>
    if k = 255 then
      if s.global_state.octave < 8 then
        some { s with global_state :=
                 { s.global_state with octave := s.global_state.octave + 1 } }
      else some s
    else if k = 254 then
      if s.global_state.octave > 0 then
        some { s with global_state :=
                 { s.global_state with octave := s.global_state.octave - 1 } }
      else some s
    else
      let note := k + s.global_state.octave * 12
      if 0 ≤ k ∧ k.toNat < s.global_state.key_note.length then
        some { s with
                 global_state :=
                   { s.global_state with
                       key_note := s.global_state.key_note.set k.toNat note }
                 on_events := vec_push s.on_events note }
      else none

/-- `rising_edge_handler` from `main.rs` (button released).  `none`
models the panic of an out-of-bounds array access. -/
def rising_edge_handler (s : Statics) (index : Nat) : Option Statics :=
  match KEYS.get? index with
  | none => none
  | some k =>
    if k < 254 then
      if 0 ≤ k then
        match s.global_state.key_note.get? k.toNat with
        | none => none
        | some note =>
          some { s with
                   global_state :=
                     { s.global_state with
                         key_note := s.global_state.key_note.set k.toNat 255 }
                   off_events := vec_push s.off_events note }
      else none
    else some s

/-- A confirmed edge dispatched to the handlers: press = falling edge,
release = rising edge. -/
inductive Ev where
  | press (index : Nat)
  | release (index : Nat)
deriving DecidableEq, Repr

/-- Dispatch one confirmed edge to its handler. -/
def stepEv (s : Statics) : Ev → Option Statics
  | .press i => falling_edge_handler s i
  | .release i => rising_edge_handler s i

/-- Run a sequence of confirmed edges from a state (panic propagates). -/
def runEvs (s : Statics) (es : List Ev) : Option Statics :=
  es.foldlM stepEv s

/-- One pass of the transmission loop over one queue (`main.rs` loop
body): the whole queue content is taken under the lock (clone + clear),
then each note of the batch is submitted in order; on failure the note
is pushed back at the tail of the queue.  `send_ok` tells whether the
transmitter accepts a given note this iteration.  Returns (notes
delivered in submission order, queue contents afterwards). -/
def tx_iteration (send_ok : Int → Bool) (q : List Int) :
    List Int × List Int :=
  q.foldl
    (fun acc note =>
      if send_ok note then (acc.1 ++ [note], acc.2)
      else (acc.1, vec_push acc.2 note))
    ([], [])

/-! ### Helper lemmas -/

lemma runEvs_nil (s : Statics) : runEvs s [] = some s := rfl

lemma runEvs_cons (s : Statics) (e : Ev) (es : List Ev) :
    runEvs s (e :: es) = (stepEv s e).bind fun s' => runEvs s' es := rfl

/-- Every entry of `KEYS` is the octave-up sentinel 255, the octave-down
sentinel 254, or a musical key index in `[0, 25)`. -/
lemma keys_cases : ∀ k ∈ KEYS, k = 255 ∨ k = 254 ∨ (0 ≤ k ∧ k < 25) := by
  decide

/-- Characterisation of `falling_edge_handler` on a musical-key channel. -/
lemma falling_edge_handler_key (s : Statics) (index : Nat) (k : Int)
    (hk : KEYS.get? index = some k) (h1 : k ≠ 255) (h2 : k ≠ 254)
    (hlen : s.global_state.key_note.length = 25) :
    falling_edge_handler s index =
      some { global_state :=
               { key_note := s.global_state.key_note.set k.toNat
                   (k + s.global_state.octave * 12)
                 octave := s.global_state.octave }
             on_events := vec_push s.on_events (k + s.global_state.octave * 12)
             off_events := s.off_events } := by
  rcases keys_cases k (List.get?_mem hk) with h | h | h
  · exact absurd h h1
  · exact absurd h h2
  · simp only [falling_edge_handler, hk, if_neg h1, if_neg h2]
    rw [if_pos ⟨h.1, by rw [hlen]; omega⟩]

/-- Characterisation of `rising_edge_handler` on a musical-key channel. -/
lemma rising_edge_handler_key (s : Statics) (index : Nat) (k note : Int)
    (hk : KEYS.get? index = some k) (h1 : k ≠ 255) (h2 : k ≠ 254)
    (hnote : s.global_state.key_note.get? k.toNat = some note) :
    rising_edge_handler s index =
      some { global_state :=
               { key_note := s.global_state.key_note.set k.toNat 255
                 octave := s.global_state.octave }
             on_events := s.on_events
             off_events := vec_push s.off_events note } := by
  rcases keys_cases k (List.get?_mem hk) with h | h | h
  · exact absurd h h1
  · exact absurd h h2
  · simp only [rising_edge_handler, hk]
    rw [if_pos (by omega : k < 254), if_pos h.1, hnote]

/-- Characterisation of `falling_edge_handler` on the octave-up channel. -/
lemma falling_edge_handler_up (s : Statics) (index : Nat)
    (hk : KEYS.get? index = some 255) :
    falling_edge_handler s index =
      some (if s.global_state.octave < 8 then
              { s with global_state :=
                  { s.global_state with octave := s.global_state.octave + 1 } }
            else s) := by
  simp only [falling_edge_handler, hk, if_pos rfl]
  by_cases h : s.global_state.octave < 8 <;> simp [h]

/-- Characterisation of `falling_edge_handler` on the octave-down channel. -/
lemma falling_edge_handler_down (s : Statics) (index : Nat)
    (hk : KEYS.get? index = some 254) :
    falling_edge_handler s index =
      some (if 0 < s.global_state.octave then
              { s with global_state :=
                  { s.global_state with octave := s.global_state.octave - 1 } }
            else s) := by
  simp only [falling_edge_handler, hk, if_neg (by decide : ¬(254:Int) = 255),
    if_pos rfl]
  by_cases h : 0 < s.global_state.octave <;> simp [h]

/-- A press on an octave channel only touches the octave: `key_note` and
both queues are unchanged. -/
lemma falling_edge_handler_oct_preserve (s s' : Statics) (index : Nat)
    (hk : KEYS.get? index = some 255 ∨ KEYS.get? index = some 254)
    (h : falling_edge_handler s index = some s') :
    s'.global_state.key_note = s.global_state.key_note ∧
      s'.on_events = s.on_events ∧ s'.off_events = s.off_events := by
  rcases hk with hk | hk
  · rw [falling_edge_handler_up s index hk] at h
    rcases Option.some.inj h with rfl
    split <;> exact ⟨rfl, rfl, rfl⟩
  · rw [falling_edge_handler_down s index hk] at h
    rcases Option.some.inj h with rfl
    split <;> exact ⟨rfl, rfl, rfl⟩

/-- A sequence of presses on octave channels leaves `key_note` unchanged. -/
lemma runEvs_oct_press_preserve (os : List Nat) :
    ∀ s s' : Statics,
      (∀ i ∈ os, KEYS.get? i = some 255 ∨ KEYS.get? i = some 254) →
      runEvs s (os.map Ev.press) = some s' →
      s'.global_state.key_note = s.global_state.key_note := by
  induction os with
  | nil =>
    intro s s' _ h
    rw [List.map_nil, runEvs_nil] at h
    rw [Option.some.inj h]
  | cons i os ih =>
    intro s s' hall h
    rw [List.map_cons, runEvs_cons] at h
    cases hstep : stepEv s (Ev.press i) with
    | none => rw [hstep] at h; exact absurd h (by simp)
    | some s1 =>
      rw [hstep, Option.some_bind] at h
      have h1 := falling_edge_handler_oct_preserve s s1 i
        (hall i (List.mem_cons_self i os)) hstep
      rw [ih s1 s' (fun j hj => hall j (List.mem_cons_of_mem i hj)) h, h1.1]

/-- Unrolling the transmission fold: while the re-enqueue target stays
under the capacity, delivered notes are the accepted ones in order, and
the queue afterwards holds the rejected ones in order. -/
lemma tx_foldl (ok : Int → Bool) :
    ∀ batch d q : List Int, q.length + batch.length ≤ 128 →
      batch.foldl
        (fun acc note =>
          if ok note then (acc.1 ++ [note], acc.2)
          else (acc.1, vec_push acc.2 note)) (d, q)
        = (d ++ batch.filter ok, q ++ batch.filter fun n => !ok n) := by
  intro batch
  induction batch with
  | nil => intro d q _; simp
  | cons x rest ih =>
    intro d q hle
    have hle' : q.length + rest.length ≤ 127 := by
      simp only [List.length_cons] at hle; omega
    rw [List.foldl_cons]
    by_cases hx : ok x
    · rw [if_pos hx]
      rw [ih (d ++ [x]) q (by omega)]
      simp [List.filter_cons, hx]
    · rw [if_neg hx]
      rw [show vec_push q x = q ++ [x] from if_pos (by omega)]
      rw [ih d (q ++ [x]) (by simp only [List.length_append, List.length_cons, List.length_nil]; omega)]
      simp [List.filter_cons, hx]

/-- `tx_iteration` partitions the drained batch: accepted notes are
delivered in order, rejected notes end up back in the queue in order. -/
lemma tx_iteration_eq (ok : Int → Bool) (q : List Int)
    (hq : q.length ≤ 128) :
    tx_iteration ok q = (q.filter ok, q.filter fun n => !ok n) := by
  have := tx_foldl ok q [] [] (by simpa using hq)
  simpa [tx_iteration] using this

/-- When every note in the batch is accepted, the fold just appends the
batch to the delivered list. -/
lemma tx_foldl_all_ok (ok : Int → Bool) :
    ∀ batch d q : List Int, (∀ x ∈ batch, ok x = true) →
      batch.foldl
        (fun acc note =>
          if ok note then (acc.1 ++ [note], acc.2)
          else (acc.1, vec_push acc.2 note)) (d, q)
        = (d ++ batch, q) := by
  intro batch
  induction batch with
  | nil => intro d q _; simp
  | cons x rest ih =>
    intro d q hall
    rw [List.foldl_cons, if_pos (hall x (List.mem_cons_self x rest))]
    rw [ih (d ++ [x]) q fun y hy => hall y (List.mem_cons_of_mem x hy)]
    simp

/-- Explicit branch form of `poll_digital_input_chip` once both array
reads are known to be in bounds. -/
lemma poll_spec (m : MuxState) (reading : Bool) (rc co : Nat) (now : Int)
    (current : SwitchState) (lc : Int)
    (h1 : m.digital_in.get? (rc + 8 * co) = some current)
    (h2 : m.last_change.get? (rc + 8 * co) = some lc) :
    m.poll_digital_input_chip reading rc co now =
      (if current ≠ (if reading then SwitchState.Low else SwitchState.High) then
         if now - lc ≥ m.debounce_interval then
           some ({ m with
                     digital_in := m.digital_in.set (rc + 8 * co)
                       (if reading then SwitchState.Low else SwitchState.High)
                     last_change := m.last_change.set (rc + 8 * co) now },
                 some (if (if reading then SwitchState.Low else SwitchState.High)
                           = SwitchState.Low then
                         Edge.falling (rc + 8 * co)
                       else Edge.rising (rc + 8 * co)))
         else some (m, none)
       else some (m, none)) := by
  unfold MuxState.poll_digital_input_chip
  dsimp only
  rw [h1, h2]

/-- An out-of-bounds channel index makes the poll panic. -/
lemma poll_oob (m : MuxState) (reading : Bool) (rc co : Nat) (now : Int)
    (h : m.digital_in.get? (rc + 8 * co) = none) :
    m.poll_digital_input_chip reading rc co now = none := by
  unfold MuxState.poll_digital_input_chip
  dsimp only
  rw [h]

/-- The trace of accepted-change timestamps on one channel is sparse:
starting from last-change time `lc`, consecutive accepted changes are at
least one debounce interval apart. -/
lemma poll_trace_chain (samples : List (Bool × Int)) :
    ∀ (m : MuxState) (rc co : Nat) (m' : MuxState) (ts : List Int) (lc : Int),
      m.last_change.get? (rc + 8 * co) = some lc →
      m.poll_trace rc co samples = some (m', ts) →
      List.Chain' (fun a b => m.debounce_interval ≤ b - a) (lc :: ts) := by
  induction samples with
  | nil =>
    intro m rc co m' ts lc _ ht
    simp only [MuxState.poll_trace, Option.some.injEq, Prod.mk.injEq] at ht
    rw [← ht.2]
    exact List.chain'_singleton lc
  | cons p rest ih =>
    obtain ⟨reading, now⟩ := p
    intro m rc co m' ts lc hlc ht
    cases hdi : m.digital_in.get? (rc + 8 * co) with
    | none =>
      rw [MuxState.poll_trace, poll_oob m reading rc co now hdi] at ht
      exact absurd ht (by simp)
    | some current =>
      have hp := poll_spec m reading rc co now current lc hdi hlc
      by_cases hne : current = (if reading then SwitchState.Low else SwitchState.High)
      · rw [if_neg (not_not_intro hne)] at hp
        rw [MuxState.poll_trace, hp] at ht
        dsimp only at ht
        cases hrest : m.poll_trace rc co rest with
        | none => rw [hrest] at ht; exact absurd ht (by simp)
        | some r =>
          obtain ⟨m2', ts2⟩ := r
          rw [hrest] at ht
          dsimp only at ht
          simp only [Option.some.injEq, Prod.mk.injEq] at ht
          rw [← ht.2]
          exact ih m rc co m2' ts2 lc hlc hrest
      · rw [if_pos hne] at hp
        by_cases hge : now - lc ≥ m.debounce_interval
        · rw [if_pos hge] at hp
          rw [MuxState.poll_trace, hp] at ht
          dsimp only at ht
          cases hrest : MuxState.poll_trace
              { m with
                  digital_in := m.digital_in.set (rc + 8 * co)
                    (if reading then SwitchState.Low else SwitchState.High)
                  last_change := m.last_change.set (rc + 8 * co) now }
              rc co rest with
          | none => rw [hrest] at ht; exact absurd ht (by simp)
          | some r =>
            obtain ⟨m2', ts2⟩ := r
            rw [hrest] at ht
            dsimp only at ht
            simp only [Option.some.injEq, Prod.mk.injEq] at ht
            have hlt : rc + 8 * co < m.last_change.length :=
              (List.get?_eq_some.mp hlc).1
            have hlc2 : (m.last_change.set (rc + 8 * co) now).get? (rc + 8 * co)
                = some now := by
              rw [List.get?_eq_getElem?]
              exact List.getElem?_set_eq_of_lt now hlt
            have hchain := ih
              { m with
                  digital_in := m.digital_in.set (rc + 8 * co)
                    (if reading then SwitchState.Low else SwitchState.High)
                  last_change := m.last_change.set (rc + 8 * co) now }
              rc co m2' ts2 now hlc2 hrest
            rw [← ht.2]
            exact List.chain'_cons.mpr ⟨hge, hchain⟩
        · rw [if_neg hge] at hp
          rw [MuxState.poll_trace, hp] at ht
          dsimp only at ht
          cases hrest : m.poll_trace rc co rest with
          | none => rw [hrest] at ht; exact absurd ht (by simp)
          | some r =>
            obtain ⟨m2', ts2⟩ := r
            rw [hrest] at ht
            dsimp only at ht
            simp only [Option.some.injEq, Prod.mk.injEq] at ht
            rw [← ht.2]
            exact ih m rc co m2' ts2 lc hlc hrest

/-- One dispatched edge keeps the octave within `[0, 8]`. -/
lemma stepEv_octave_bounds (s s' : Statics) (e : Ev)
    (h : stepEv s e = some s')
    (h0 : 0 ≤ s.global_state.octave) (h8 : s.global_state.octave ≤ 8) :
    0 ≤ s'.global_state.octave ∧ s'.global_state.octave ≤ 8 := by
  cases e with
  | press i =>
    unfold stepEv falling_edge_handler at h
    dsimp only at h
    cases hk : KEYS.get? i with
    | none => rw [hk] at h; exact absurd h (by simp)
    | some k =>
      rw [hk] at h
      dsimp only at h
      by_cases e255 : k = 255
      · rw [if_pos e255] at h
        by_cases hoc : s.global_state.octave < 8
        · rw [if_pos hoc] at h
          rcases Option.some.inj h with rfl
          exact ⟨by show (0:Int) ≤ s.global_state.octave + 1; omega,
                 by show s.global_state.octave + 1 ≤ 8; omega⟩
        · rw [if_neg hoc] at h
          rcases Option.some.inj h with rfl
          exact ⟨h0, h8⟩
      · rw [if_neg e255] at h
        by_cases e254 : k = 254
        · rw [if_pos e254] at h
          by_cases hoc : s.global_state.octave > 0
          · rw [if_pos hoc] at h
            rcases Option.some.inj h with rfl
            exact ⟨by show (0:Int) ≤ s.global_state.octave - 1; omega,
                   by show s.global_state.octave - 1 ≤ 8; omega⟩
          · rw [if_neg hoc] at h
            rcases Option.some.inj h with rfl
            exact ⟨h0, h8⟩
        · rw [if_neg e254] at h
          split at h
          · rcases Option.some.inj h with rfl
            exact ⟨h0, h8⟩
          · exact absurd h (by simp)
  | release i =>
    unfold stepEv rising_edge_handler at h
    dsimp only at h
    cases hk : KEYS.get? i with
    | none => rw [hk] at h; exact absurd h (by simp)
    | some k =>
      rw [hk] at h
      dsimp only at h
      by_cases h254 : k < 254
      · rw [if_pos h254] at h
        by_cases hpos : 0 ≤ k
        · rw [if_pos hpos] at h
          cases hn : s.global_state.key_note.get? k.toNat with
          | none => rw [hn] at h; exact absurd h (by simp)
          | some note =>
            rw [hn] at h
            dsimp only at h
            rcases Option.some.inj h with rfl
            exact ⟨h0, h8⟩
        · rw [if_neg hpos] at h; exact absurd h (by simp)
      · rw [if_neg h254] at h
        rcases Option.some.inj h with rfl
        exact ⟨h0, h8⟩

/-- Any successful run of dispatched edges keeps the octave within
`[0, 8]`. -/
lemma runEvs_octave_bounds (es : List Ev) :
    ∀ s s' : Statics, 0 ≤ s.global_state.octave →
      s.global_state.octave ≤ 8 → runEvs s es = some s' →
      0 ≤ s'.global_state.octave ∧ s'.global_state.octave ≤ 8 := by
  induction es with
  | nil =>
    intro s s' h0 h8 h
    rw [runEvs_nil] at h
    rcases Option.some.inj h with rfl
    exact ⟨h0, h8⟩
  | cons e es ih =>
    intro s s' h0 h8 h
    rw [runEvs_cons] at h
    cases hstep : stepEv s e with
    | none => rw [hstep] at h; exact absurd h (by simp)
    | some s1 =>
      rw [hstep, Option.some_bind] at h
      obtain ⟨g0, g8⟩ := stepEv_octave_bounds s s1 e hstep h0 h8
      exact ih s1 s' g0 g8 h

/-- A release never modifies the octave. -/
lemma rising_edge_handler_octave (s s' : Statics) (i : Nat)
    (h : rising_edge_handler s i = some s') :
    s'.global_state.octave = s.global_state.octave := by
  unfold rising_edge_handler at h
  cases hk : KEYS.get? i with
  | none => rw [hk] at h; exact absurd h (by simp)
  | some k =>
    rw [hk] at h
    dsimp only at h
    by_cases h254 : k < 254
    · rw [if_pos h254] at h
      by_cases hpos : 0 ≤ k
      · rw [if_pos hpos] at h
        cases hn : s.global_state.key_note.get? k.toNat with
        | none => rw [hn] at h; exact absurd h (by simp)
        | some note =>
          rw [hn] at h
          dsimp only at h
          rcases Option.some.inj h with rfl
          rfl
      · rw [if_neg hpos] at h; exact absurd h (by simp)
    · rw [if_neg h254] at h
      rcases Option.some.inj h with rfl
      rfl

/-- A press on a musical-key channel never modifies the octave. -/
lemma falling_edge_handler_key_octave (s s' : Statics) (i : Nat) (k : Int)
    (hk : KEYS.get? i = some k) (h1 : k ≠ 255) (h2 : k ≠ 254)
    (h : falling_edge_handler s i = some s') :
    s'.global_state.octave = s.global_state.octave := by
  unfold falling_edge_handler at h
  rw [hk] at h
  dsimp only at h
  rw [if_neg h1, if_neg h2] at h
  split at h
  · rcases Option.some.inj h with rfl
    rfl
  · exact absurd h (by simp)

/-- A fired edge carries exactly the flat channel index
`read_channel + 8 * chip_offset`. -/
lemma poll_oob_last (m : MuxState) (reading : Bool) (rc co : Nat)
    (now : Int) (h : m.last_change.get? (rc + 8 * co) = none) :
    m.poll_digital_input_chip reading rc co now = none := by
  unfold MuxState.poll_digital_input_chip
  dsimp only
  rw [h]
  cases m.digital_in.get? (rc + 8 * co) <;> rfl

/-- A fired edge carries exactly the flat channel index
`read_channel + 8 * chip_offset`. -/
lemma poll_edge_index (m : MuxState) (reading : Bool) (rc co : Nat)
    (now : Int) (m' : MuxState) (ed : Edge)
    (h : m.poll_digital_input_chip reading rc co now = some (m', some ed)) :
    ed.index = rc + 8 * co := by
  cases hdi : m.digital_in.get? (rc + 8 * co) with
  | none =>
    rw [poll_oob m reading rc co now hdi] at h
    exact absurd h (by simp)
  | some current =>
    cases hlc : m.last_change.get? (rc + 8 * co) with
    | none =>
      rw [poll_oob_last m reading rc co now hlc] at h
      exact absurd h (by simp)
    | some lc =>
      rw [poll_spec m reading rc co now current lc hdi hlc] at h
      by_cases hne : current ≠ (if reading then SwitchState.Low else SwitchState.High)
      · rw [if_pos hne] at h
        by_cases hge : now - lc ≥ m.debounce_interval
        · rw [if_pos hge] at h
          simp only [Option.some.injEq, Prod.mk.injEq] at h
          rcases h.2 with rfl
          split <;> rfl
        · rw [if_neg hge] at h
          simp only [Option.some.injEq, Prod.mk.injEq] at h
          exact absurd h.2 (by simp)
      · rw [if_neg hne] at h
        simp only [Option.some.injEq, Prod.mk.injEq] at h
        exact absurd h.2 (by simp)

/-! ### Claim theorems -/

/-- Claim C9: for every channel in `0..8`, `set_channel` drives the three
address lines to the 3-bit binary encoding of the channel with the
least-significant bit on the first line (line `i` is high iff bit `i` of
the channel is 1), and it changes nothing besides the address lines. -/
theorem set_channel_binary_encoding (m : MuxState) (channel i : Nat)
    (_hc : channel < 8) (hi : i < 3) :
    (m.set_channel channel).select.get? i = some (channel.testBit i)
    ∧ (m.set_channel channel).digital_in = m.digital_in
    ∧ (m.set_channel channel).last_change = m.last_change
    ∧ (m.set_channel channel).debounce_interval = m.debounce_interval := by
  refine ⟨?_, rfl, rfl, rfl⟩
  have hx : ∀ j, decide ((channel >>> j) &&& 1 ≠ 0) = channel.testBit j := by
    intro j
    rw [Nat.testBit_to_div_mod, Nat.shiftRight_eq_div_pow, Nat.and_one_is_mod]
    exact decide_eq_decide.mpr (by omega)
  interval_cases i
  · exact congrArg some (hx 0)
  · exact congrArg some (hx 1)
  · exact congrArg some (hx 2)

/-- Witness for C9 at `channel = 5`, line 1. -/
theorem set_channel_binary_encoding_witness :
    ((MuxState.new 0).set_channel 5).select.get? 1 = some ((5:Nat).testBit 1)
    ∧ ((MuxState.new 0).set_channel 5).digital_in = (MuxState.new 0).digital_in
    ∧ ((MuxState.new 0).set_channel 5).last_change = (MuxState.new 0).last_change
    ∧ ((MuxState.new 0).set_channel 5).debounce_interval
        = (MuxState.new 0).debounce_interval :=
  set_channel_binary_encoding (MuxState.new 0) 5 1 (by decide) (by decide)

/-- Claim C7: pushing onto a queue that already holds 128 entries leaves
the queue unchanged and silently discards the new entry, with no error
and no eviction; in particular the press handler leaves a full note-on
queue unchanged and the release handler leaves a full note-off queue
unchanged. -/
theorem queue_overflow_drops_newest (q : List Int) (x : Int)
    (s s' t t' : Statics) (i j : Nat)
    (hq : q.length = 128)
    (hs : s.on_events.length = 128)
    (hf : falling_edge_handler s i = some s')
    (ht : t.off_events.length = 128)
    (hr : rising_edge_handler t j = some t') :
    vec_push q x = q ∧ s'.on_events = s.on_events
      ∧ t'.off_events = t.off_events := by
  refine ⟨by unfold vec_push; rw [if_neg (by omega)], ?_, ?_⟩
  · unfold falling_edge_handler at hf
    cases hk : KEYS.get? i with
    | none => rw [hk] at hf; exact absurd hf (by simp)
    | some k =>
      rw [hk] at hf
      dsimp only at hf
      by_cases e255 : k = 255
      · rw [if_pos e255] at hf
        split at hf <;> · rcases Option.some.inj hf with rfl; rfl
      · rw [if_neg e255] at hf
        by_cases e254 : k = 254
        · rw [if_pos e254] at hf
          split at hf <;> · rcases Option.some.inj hf with rfl; rfl
        · rw [if_neg e254] at hf
          split at hf
          · rcases Option.some.inj hf with rfl
            show vec_push s.on_events _ = s.on_events
            unfold vec_push
            rw [if_neg (by omega)]
          · exact absurd hf (by simp)
  · unfold rising_edge_handler at hr
    cases hk : KEYS.get? j with
    | none => rw [hk] at hr; exact absurd hr (by simp)
    | some k =>
      rw [hk] at hr
      dsimp only at hr
      by_cases h254 : k < 254
      · rw [if_pos h254] at hr
        by_cases hpos : 0 ≤ k
        · rw [if_pos hpos] at hr
          cases hn : t.global_state.key_note.get? k.toNat with
          | none => rw [hn] at hr; exact absurd hr (by simp)
          | some note =>
            rw [hn] at hr
            dsimp only at hr
            rcases Option.some.inj hr with rfl
            show vec_push t.off_events note = t.off_events
            unfold vec_push
            rw [if_neg (by omega)]
        · rw [if_neg hpos] at hr; exact absurd hr (by simp)
      · rw [if_neg h254] at hr
        rcases Option.some.inj hr with rfl
        rfl

set_option maxRecDepth 4000 in
/-- Witness for C7: a full note-on queue stays unchanged on a press of
key channel 2, and a full note-off queue on the matching release. -/
theorem queue_overflow_drops_newest_witness :
    vec_push (List.replicate 128 0) 7 = List.replicate 128 0
    ∧ (Statics.mk (GlobalState.mk ((List.replicate 25 255).set 0 48) 4)
         (List.replicate 128 0) []).on_events
        = (Statics.mk (GlobalState.mk (List.replicate 25 255) 4)
             (List.replicate 128 0) []).on_events
    ∧ (Statics.mk (GlobalState.mk ((List.replicate 25 255).set 0 255) 4)
         [] (List.replicate 128 9)).off_events
        = (Statics.mk (GlobalState.mk (List.replicate 25 255) 4)
             [] (List.replicate 128 9)).off_events :=
  queue_overflow_drops_newest (List.replicate 128 0) 7
    (Statics.mk (GlobalState.mk (List.replicate 25 255) 4)
      (List.replicate 128 0) [])
    (Statics.mk (GlobalState.mk ((List.replicate 25 255).set 0 48) 4)
      (List.replicate 128 0) [])
    (Statics.mk (GlobalState.mk (List.replicate 25 255) 4)
      [] (List.replicate 128 9))
    (Statics.mk (GlobalState.mk ((List.replicate 25 255).set 0 255) 4)
      [] (List.replicate 128 9))
    2 2 (by decide) (by decide) (by decide) (by decide) (by decide)

/-- Claim C5: each transmission iteration drains the whole queue and
submits the batch in FIFO order: with no failures the delivered sequence
is exactly the queue content and the queue is left empty, and in general
the delivered sequence is the accepted subsequence in insertion order. -/
theorem tx_iteration_fifo (ok : Int → Bool) (q : List Int)
    (hall : ∀ x ∈ q, ok x = true)
    (ok2 : Int → Bool) (r : List Int) (hr : r.length ≤ 128) :
    tx_iteration ok q = (q, [])
    ∧ (tx_iteration ok2 r).1 = r.filter ok2 := by
  constructor
  · unfold tx_iteration
    rw [tx_foldl_all_ok ok q [] [] hall]
    simp
  · rw [tx_iteration_eq ok2 r hr]

/-- Witness for C5 on the batch `[60, 62, 64]` with no failures. -/
theorem tx_iteration_fifo_witness :
    tx_iteration (fun _ => true) [60, 62, 64] = ([60, 62, 64], [])
    ∧ (tx_iteration (fun n => decide (n % 2 = 0)) [60, 61, 62]).1
        = List.filter (fun n => decide (n % 2 = 0)) [60, 61, 62] :=
  tx_iteration_fifo (fun _ => true) [60, 62, 64] (by decide)
    (fun n => decide (n % 2 = 0)) [60, 61, 62] (by decide)

/-- Claim C4: a note whose submission fails is pushed back at the tail
(the new queue is the rejected subsequence in order) and is not
delivered this iteration; a note that fails once and then succeeds is
delivered exactly as many times as it sat in the queue — once for a
single occurrence — and is gone from the queue afterwards. -/
theorem tx_retry_exactly_once (q : List Int) (a : Int) (ok1 ok2 : Int → Bool)
    (hlen : q.length ≤ 128) (_ha : a ∈ q)
    (h1 : ok1 a = false) (h2 : ok2 a = true) :
    (tx_iteration ok1 q).2 = q.filter (fun n => !ok1 n)
    ∧ (tx_iteration ok1 q).1.count a = 0
    ∧ (tx_iteration ok1 q).2.count a = q.count a
    ∧ (tx_iteration ok2 (tx_iteration ok1 q).2).1.count a = q.count a
    ∧ (tx_iteration ok2 (tx_iteration ok1 q).2).2.count a = 0 := by
  have hq1len : (q.filter fun n => !ok1 n).length ≤ 128 :=
    le_trans (List.length_filter_le _ q) hlen
  rw [tx_iteration_eq ok1 q hlen]
  dsimp only
  rw [tx_iteration_eq ok2 (q.filter fun n => !ok1 n) hq1len]
  dsimp only
  refine ⟨rfl, ?_, ?_, ?_, ?_⟩
  · rw [List.count_eq_zero]
    intro hmem
    have hcontra := (List.mem_filter.mp hmem).2
    rw [h1] at hcontra
    exact Bool.false_ne_true hcontra
  · exact List.count_filter (by simp [h1])
  · rw [List.count_filter (by simp [h2])]
    exact List.count_filter (by simp [h1])
  · rw [List.count_eq_zero]
    intro hmem
    have hcontra := (List.mem_filter.mp hmem).2
    simp [h2] at hcontra

/-- Witness for C4: note 71 fails in the first iteration and succeeds in
the second. -/
theorem tx_retry_exactly_once_witness :
    (tx_iteration (fun _ => false) [71]).2
        = List.filter (fun n => !(fun _ => false) n) [71]
    ∧ (tx_iteration (fun _ => false) [71]).1.count 71 = 0
    ∧ (tx_iteration (fun _ => false) [71]).2.count 71 = List.count 71 [71]
    ∧ (tx_iteration (fun _ => true)
        (tx_iteration (fun _ => false) [71]).2).1.count 71 = List.count 71 [71]
    ∧ (tx_iteration (fun _ => true)
        (tx_iteration (fun _ => false) [71]).2).2.count 71 = 0 :=
  tx_retry_exactly_once [71] 71 (fun _ => false) (fun _ => true)
    (by decide) (by decide) (by decide) (by decide)

/-- Claim C3: pressing a channel mapped to musical key `k` at octave `o`
computes `note = k + o*12`, records `key_note[k] = note` and enqueues
`note` on the note-on queue; in particular, from the initial state,
pressing the key at channel index 2 (key 0, octave 4) enqueues note-on
48 and releasing it enqueues note-off 48. -/
theorem press_key_enqueues_note (s : Statics) (index : Nat) (k : Int)
    (hk : KEYS.get? index = some k) (h1 : k ≠ 255) (h2 : k ≠ 254)
    (hlen : s.global_state.key_note.length = 25) :
    falling_edge_handler s index =
      some { global_state :=
               { key_note := s.global_state.key_note.set k.toNat
                   (k + s.global_state.octave * 12)
                 octave := s.global_state.octave }
             on_events := vec_push s.on_events (k + s.global_state.octave * 12)
             off_events := s.off_events }
    ∧ runEvs initStatics [Ev.press 2, Ev.release 2] =
        some { global_state := { key_note := List.replicate 25 255, octave := 4 }
               on_events := [48]
               off_events := [48] } :=
  ⟨falling_edge_handler_key s index k hk h1 h2 hlen, by decide⟩

/-- Witness for C3 at the initial state, channel index 2 (key 0). -/
theorem press_key_enqueues_note_witness :
    falling_edge_handler initStatics 2 =
      some { global_state :=
               { key_note := initStatics.global_state.key_note.set (0:Int).toNat
                   (0 + initStatics.global_state.octave * 12)
                 octave := initStatics.global_state.octave }
             on_events := vec_push initStatics.on_events
               (0 + initStatics.global_state.octave * 12)
             off_events := initStatics.off_events }
    ∧ runEvs initStatics [Ev.press 2, Ev.release 2] =
        some { global_state := { key_note := List.replicate 25 255, octave := 4 }
               on_events := [48]
               off_events := [48] } :=
  press_key_enqueues_note initStatics 2 0 (by decide) (by decide) (by decide)
    (by decide)

/-- Claim C8: releasing a key channel whose `key_note` entry was never
set by a press enqueues the sentinel 255 on the note-off queue without
any filtering and leaves `key_note[k] = 255`; releasing a channel mapped
to an octave control changes nothing at all. -/
theorem release_never_pressed_sentinel (s : Statics) (index : Nat) (k : Int)
    (t : Statics) (jndex : Nat) (ko : Int)
    (hk : KEYS.get? index = some k) (h1 : k ≠ 255) (h2 : k ≠ 254)
    (hsent : s.global_state.key_note.get? k.toNat = some 255)
    (hko : KEYS.get? jndex = some ko) (hoct : ko = 255 ∨ ko = 254) :
    rising_edge_handler s index =
      some { global_state :=
               { key_note := s.global_state.key_note.set k.toNat 255
                 octave := s.global_state.octave }
             on_events := s.on_events
             off_events := vec_push s.off_events 255 }
    ∧ (s.global_state.key_note.set k.toNat 255).get? k.toNat = some 255
    ∧ rising_edge_handler t jndex = some t := by
  refine ⟨rising_edge_handler_key s index k 255 hk h1 h2 hsent, ?_, ?_⟩
  · rw [List.get?_eq_getElem?]
    exact List.getElem?_set_eq_of_lt 255 (List.get?_eq_some.mp hsent).1
  · rcases hoct with rfl | rfl
    · unfold rising_edge_handler
      rw [hko]
      dsimp only
      rw [if_neg (by decide)]
    · unfold rising_edge_handler
      rw [hko]
      dsimp only
      rw [if_neg (by decide)]

/-- Witness for C8: releasing never-pressed key channel 2 from the
initial state, and releasing the octave-up channel 0. -/
theorem release_never_pressed_sentinel_witness :
    rising_edge_handler initStatics 2 =
      some { global_state :=
               { key_note := initStatics.global_state.key_note.set (0:Int).toNat 255
                 octave := initStatics.global_state.octave }
             on_events := initStatics.on_events
             off_events := vec_push initStatics.off_events 255 }
    ∧ (initStatics.global_state.key_note.set (0:Int).toNat 255).get? (0:Int).toNat
        = some 255
    ∧ rising_edge_handler initStatics 0 = some initStatics :=
  release_never_pressed_sentinel initStatics 2 0 initStatics 0 255
    (by decide) (by decide) (by decide) (by decide) (by decide) (Or.inl rfl)

/-- Claim C6: the octave starts at 4, stays within `[0, 8]` in every
reachable state, is incremented by octave-up only below 8 and
decremented by octave-down only above 0 (boundary requests are silent
no-ops producing no event), and no other operation modifies it. -/
theorem octave_clamped (es : List Ev) (sr : Statics)
    (hrun : runEvs initStatics es = some sr)
    (t : Statics) (iu : Nat) (hu : KEYS.get? iu = some 255)
    (u : Statics) (idx : Nat) (hd : KEYS.get? idx = some 254)
    (v v' : Statics) (iv : Nat) (kv : Int)
    (hkv : KEYS.get? iv = some kv) (hv1 : kv ≠ 255) (hv2 : kv ≠ 254)
    (hv : falling_edge_handler v iv = some v')
    (w w' : Statics) (iw : Nat) (hw : rising_edge_handler w iw = some w') :
    initStatics.global_state.octave = 4
    ∧ (0 ≤ sr.global_state.octave ∧ sr.global_state.octave ≤ 8)
    ∧ falling_edge_handler t iu =
        some (if t.global_state.octave < 8 then
                { t with global_state :=
                    { t.global_state with octave := t.global_state.octave + 1 } }
              else t)
    ∧ falling_edge_handler u idx =
        some (if 0 < u.global_state.octave then
                { u with global_state :=
                    { u.global_state with octave := u.global_state.octave - 1 } }
              else u)
    ∧ v'.global_state.octave = v.global_state.octave
    ∧ w'.global_state.octave = w.global_state.octave :=
  ⟨rfl,
   runEvs_octave_bounds es initStatics sr (by decide) (by decide) hrun,
   falling_edge_handler_up t iu hu,
   falling_edge_handler_down u idx hd,
   falling_edge_handler_key_octave v v' iv kv hkv hv1 hv2 hv,
   rising_edge_handler_octave w w' iw hw⟩

/-- Witness for C6: one octave-up press from the initial state, plus
concrete instances for each conjunct. -/
theorem octave_clamped_witness :
    initStatics.global_state.octave = 4
    ∧ (0 ≤ (Statics.mk (GlobalState.mk (List.replicate 25 255) 5) [] []).global_state.octave
       ∧ (Statics.mk (GlobalState.mk (List.replicate 25 255) 5) [] []).global_state.octave ≤ 8)
    ∧ falling_edge_handler initStatics 0 =
        some (if initStatics.global_state.octave < 8 then
                { initStatics with global_state :=
                    { initStatics.global_state with
                        octave := initStatics.global_state.octave + 1 } }
              else initStatics)
    ∧ falling_edge_handler initStatics 1 =
        some (if 0 < initStatics.global_state.octave then
                { initStatics with global_state :=
                    { initStatics.global_state with
                        octave := initStatics.global_state.octave - 1 } }
              else initStatics)
    ∧ (Statics.mk (GlobalState.mk ((List.replicate 25 255).set 0 48) 4) [48] []).global_state.octave
        = initStatics.global_state.octave
    ∧ (Statics.mk (GlobalState.mk ((List.replicate 25 255).set 0 255) 4) [] [255]).global_state.octave
        = initStatics.global_state.octave :=
  octave_clamped [Ev.press 0]
    (Statics.mk (GlobalState.mk (List.replicate 25 255) 5) [] [])
    (by decide)
    initStatics 0 (by decide)
    initStatics 1 (by decide)
    initStatics
    (Statics.mk (GlobalState.mk ((List.replicate 25 255).set 0 48) 4) [48] [])
    2 0 (by decide) (by decide) (by decide) (by decide)
    initStatics
    (Statics.mk (GlobalState.mk ((List.replicate 25 255).set 0 255) 4) [] [255])
    2 (by decide)

/-- Claim C1: if key `k` is pressed at octave `o1`, the octave is then
changed any number of times by octave-button presses, and `k` is
released, the note-off enqueued at release carries `k + o1*12` — the
value recorded in `key_note[k]` at the press — not a value computed from
the octave at release time. -/
theorem octave_shift_persistence (s : Statics) (index : Nat) (k : Int)
    (os : List Nat) (s1 s2 s3 : Statics)
    (hk : KEYS.get? index = some k) (h1 : k ≠ 255) (h2 : k ≠ 254)
    (hlen : s.global_state.key_note.length = 25)
    (hp : falling_edge_handler s index = some s1)
    (hos : ∀ i ∈ os, KEYS.get? i = some 255 ∨ KEYS.get? i = some 254)
    (ho : runEvs s1 (os.map Ev.press) = some s2)
    (hr : rising_edge_handler s2 index = some s3) :
    s2.global_state.key_note.get? k.toNat
        = some (k + s.global_state.octave * 12)
    ∧ s3.off_events = vec_push s2.off_events
        (k + s.global_state.octave * 12) := by
  rw [falling_edge_handler_key s index k hk h1 h2 hlen] at hp
  rcases Option.some.inj hp with rfl
  have hk25 : k.toNat < 25 := by
    rcases keys_cases k (List.get?_mem hk) with h | h | h
    · exact absurd h h1
    · exact absurd h h2
    · omega
  have hnote : s2.global_state.key_note.get? k.toNat
      = some (k + s.global_state.octave * 12) := by
    rw [runEvs_oct_press_preserve os _ s2 hos ho]
    dsimp only
    rw [List.get?_eq_getElem?]
    exact List.getElem?_set_eq_of_lt _ (by rw [hlen]; omega)
  refine ⟨hnote, ?_⟩
  rw [rising_edge_handler_key s2 index k _ hk h1 h2 hnote] at hr
  rcases Option.some.inj hr with rfl
  rfl

/-- Witness for C1: press key 0 (channel 2) at octave 4, shift the
octave up once, release — the note-off still carries 48. -/
theorem octave_shift_persistence_witness :
    (Statics.mk (GlobalState.mk ((List.replicate 25 255).set 0 48) 5) [48] []).global_state.key_note.get?
        (0:Int).toNat
        = some (0 + initStatics.global_state.octave * 12)
    ∧ (Statics.mk (GlobalState.mk (((List.replicate 25 255).set 0 48).set 0 255) 5) [48] [48]).off_events
        = vec_push
            (Statics.mk (GlobalState.mk ((List.replicate 25 255).set 0 48) 5) [48] []).off_events
            (0 + initStatics.global_state.octave * 12) :=
  octave_shift_persistence initStatics 2 0 [0]
    (Statics.mk (GlobalState.mk ((List.replicate 25 255).set 0 48) 4) [48] [])
    (Statics.mk (GlobalState.mk ((List.replicate 25 255).set 0 48) 5) [48] [])
    (Statics.mk (GlobalState.mk (((List.replicate 25 255).set 0 48).set 0 255) 5) [48] [48])
    (by decide) (by decide) (by decide) (by decide) (by decide) (by decide)
    (by decide) (by decide)

/-- Claim C2: a sample that differs from the stable state while
`now - last_change < debounce_interval` is ignored entirely (the state,
including `last_change`, is returned unchanged — the window is not
restarted); a differing sample arriving at least `debounce_interval`
after the last accepted change is committed (stable state and
`last_change` updated, edge callback fired); and over any sample
sequence on one channel the accepted-change timestamps are pairwise at
least `debounce_interval` apart, starting from the channel's prior
`last_change` value. -/
theorem debounce_flat_window
    (m : MuxState) (reading : Bool) (rc co : Nat) (now lc : Int)
    (current : SwitchState)
    (h1 : m.digital_in.get? (rc + 8 * co) = some current)
    (h2 : m.last_change.get? (rc + 8 * co) = some lc)
    (h3 : current ≠ (if reading then SwitchState.Low else SwitchState.High))
    (h4 : now - lc < m.debounce_interval)
    (m2 : MuxState) (reading2 : Bool) (rc2 co2 : Nat) (now2 lc2 : Int)
    (current2 : SwitchState)
    (g1 : m2.digital_in.get? (rc2 + 8 * co2) = some current2)
    (g2 : m2.last_change.get? (rc2 + 8 * co2) = some lc2)
    (g3 : current2 ≠ (if reading2 then SwitchState.Low else SwitchState.High))
    (g4 : m2.debounce_interval ≤ now2 - lc2)
    (m3 : MuxState) (rc3 co3 : Nat) (samples : List (Bool × Int))
    (m3' : MuxState) (ts : List Int) (lc3 : Int)
    (t1 : m3.last_change.get? (rc3 + 8 * co3) = some lc3)
    (t2 : m3.poll_trace rc3 co3 samples = some (m3', ts)) :
    m.poll_digital_input_chip reading rc co now = some (m, none)
    ∧ m2.poll_digital_input_chip reading2 rc2 co2 now2 =
        some ({ m2 with
                  digital_in := m2.digital_in.set (rc2 + 8 * co2)
                    (if reading2 then SwitchState.Low else SwitchState.High)
                  last_change := m2.last_change.set (rc2 + 8 * co2) now2 },
              some (if (if reading2 then SwitchState.Low else SwitchState.High)
                        = SwitchState.Low
                    then Edge.falling (rc2 + 8 * co2)
                    else Edge.rising (rc2 + 8 * co2)))
    ∧ List.Chain' (fun a b => m3.debounce_interval ≤ b - a) (lc3 :: ts) := by
  refine ⟨?_, ?_, poll_trace_chain samples m3 rc3 co3 m3' ts lc3 t1 t2⟩
  · rw [poll_spec m reading rc co now current lc h1 h2]
    rw [if_pos h3, if_neg (by omega : ¬ now - lc ≥ m.debounce_interval)]
  · rw [poll_spec m2 reading2 rc2 co2 now2 current2 lc2 g1 g2]
    rw [if_pos g3, if_pos g4]

/-- Witness for C2: on channel 2 a bounce 5 ticks after the last change
is ignored, a press 25 ticks after is committed, and a press/bounce/release
trace yields accepted changes 30 ticks apart. -/
theorem debounce_flat_window_witness :
    (MuxState.mk [false, false, false] (List.replicate 64 SwitchState.High)
        (List.replicate 64 0) 20).poll_digital_input_chip true 2 0 5
      = some (MuxState.mk [false, false, false]
          (List.replicate 64 SwitchState.High) (List.replicate 64 0) 20, none)
    ∧ (MuxState.mk [false, false, false] (List.replicate 64 SwitchState.High)
          (List.replicate 64 0) 20).poll_digital_input_chip true 2 0 25 =
        some ({ MuxState.mk [false, false, false]
                  (List.replicate 64 SwitchState.High) (List.replicate 64 0) 20 with
                  digital_in := (List.replicate 64 SwitchState.High).set (2 + 8 * 0)
                    (if true then SwitchState.Low else SwitchState.High)
                  last_change := (List.replicate 64 (0:Int)).set (2 + 8 * 0) 25 },
              some (if (if true then SwitchState.Low else SwitchState.High)
                        = SwitchState.Low
                    then Edge.falling (2 + 8 * 0)
                    else Edge.rising (2 + 8 * 0)))
    ∧ List.Chain' (fun a b => (MuxState.new 0).debounce_interval ≤ b - a)
        (-20 :: [10, 40]) :=
  debounce_flat_window
    (MuxState.mk [false, false, false] (List.replicate 64 SwitchState.High)
      (List.replicate 64 0) 20) true 2 0 5 0 SwitchState.High
    (by decide) (by decide) (by decide) (by decide)
    (MuxState.mk [false, false, false] (List.replicate 64 SwitchState.High)
      (List.replicate 64 0) 20) true 2 0 25 0 SwitchState.High
    (by decide) (by decide) (by decide) (by decide)
    (MuxState.new 0) 2 0 [(true, 10), (false, 15), (false, 40)]
    (MuxState.mk [false, false, false]
      (((List.replicate 64 SwitchState.High).set 2 SwitchState.Low).set 2 SwitchState.High)
      (((List.replicate 64 (-20:Int)).set 2 10).set 2 40) 20)
    [10, 40] (-20) (by decide) (by decide)

/-- Claim C10: `KEYS` has exactly 27 entries while the four configured
8-channel chips produce confirmed edges with flat indices up to 31; for
an index of 27 or more both edge handlers hit an out-of-bounds
`KEYS[index]` access (a panic, modelled `none`), not a silent no-op,
and they are total for indices below 27. -/
theorem keys_shorter_than_scanned_range (s : Statics) (i : Nat) (hi : 27 ≤ i)
    (t : Statics) (j : Nat) (hj : j < 27)
    (hlen : t.global_state.key_note.length = 25)
    (m : MuxState) (reading : Bool) (rc co : Nat) (now : Int)
    (m' : MuxState) (ed : Edge) (hrc : rc < 8) (hco : co < 4)
    (hp : m.poll_digital_input_chip reading rc co now = some (m', some ed)) :
    KEYS.length = 27
    ∧ falling_edge_handler s i = none
    ∧ rising_edge_handler s i = none
    ∧ (falling_edge_handler t j).isSome
    ∧ (rising_edge_handler t j).isSome
    ∧ ed.index < 32
    ∧ ((MuxState.new 0).poll_digital_input_chip true 7 3 0).map (fun r => r.2)
        = some (some (Edge.falling 31))
    ∧ falling_edge_handler initStatics 31 = none := by
  have hnone : KEYS.get? i = none := List.get?_eq_none.mpr (by rw [show KEYS.length = 27 from rfl]; omega)
  have hsome : ∃ k, KEYS.get? j = some k := by
    cases hg : KEYS.get? j with
    | none => exact absurd (List.get?_eq_none.mp hg) (by rw [show KEYS.length = 27 from rfl]; omega)
    | some k => exact ⟨k, rfl⟩
  obtain ⟨k, hkj⟩ := hsome
  refine ⟨rfl, ?_, ?_, ?_, ?_, ?_, by decide, by decide⟩
  · unfold falling_edge_handler
    rw [hnone]
  · unfold rising_edge_handler
    rw [hnone]
  · rcases keys_cases k (List.get?_mem hkj) with rfl | rfl | hkk
    · rw [falling_edge_handler_up t j hkj]; rfl
    · rw [falling_edge_handler_down t j hkj]; rfl
    · rw [falling_edge_handler_key t j k hkj (by omega) (by omega) hlen]; rfl
  · rcases keys_cases k (List.get?_mem hkj) with rfl | rfl | hkk
    · unfold rising_edge_handler
      rw [hkj]
      dsimp only
      rw [if_neg (by decide)]
      rfl
    · unfold rising_edge_handler
      rw [hkj]
      dsimp only
      rw [if_neg (by decide)]
      rfl
    · cases hn : t.global_state.key_note.get? k.toNat with
      | none =>
        exact absurd (List.get?_eq_none.mp hn) (by rw [hlen]; omega)
      | some note =>
        rw [rising_edge_handler_key t j k note hkj (by omega) (by omega) hn]
        rfl
  · rw [poll_edge_index m reading rc co now m' ed hp]
    omega

/-- Witness for C10: index 27 panics, index 2 is handled, and a
confirmed falling edge on flat index 31 is produced by chip offset 3,
channel 7. -/
theorem keys_shorter_than_scanned_range_witness :
    KEYS.length = 27
    ∧ falling_edge_handler initStatics 27 = none
    ∧ rising_edge_handler initStatics 27 = none
    ∧ (falling_edge_handler initStatics 2).isSome
    ∧ (rising_edge_handler initStatics 2).isSome
    ∧ (Edge.falling 31).index < 32
    ∧ ((MuxState.new 0).poll_digital_input_chip true 7 3 0).map (fun r => r.2)
        = some (some (Edge.falling 31))
    ∧ falling_edge_handler initStatics 31 = none :=
  keys_shorter_than_scanned_range initStatics 27 (by decide)
    initStatics 2 (by decide) (by decide)
    (MuxState.new 0) true 7 3 0
    (MuxState.mk [false, false, false]
      ((List.replicate 64 SwitchState.High).set 31 SwitchState.Low)
      ((List.replicate 64 (-20:Int)).set 31 0) 20)
    (Edge.falling 31) (by decide) (by decide) (by decide)

end MidiController
